import Mathlib

/-!
Shallow embedding of the Commit-Reveal² protocol engine
(`src/onchain_contract.py`, `src/leader.py`, `src/hybrid_contract.py`).

Byte strings are modelled as `List Nat` (one entry per byte).  Python
dicts are modelled as insertion-ordered association lists; Python sets of
addresses as the list of elements in registration order.  Operations that
can raise an uncaught Python exception (`KeyError`, `IndexError`,
`ValueError`, `TypeError`) return `Option`, with `none` marking the crash.
The hash function `H` (Keccak-256 in `crypto_utils.hash_function`), the
signature verifier `Ver` (`crypto_utils.verify_signature`) and the Merkle
node hash `mh` (inside the external `merkletools` library) are external
cryptographic collaborators and are passed as parameters.
-/

namespace CommitReveal

/-- A byte string: a list of byte values. -/
abbrev Bytes := List Nat

/-- Lookup in an insertion-ordered association list (Python `dict[k]` /
`dict.get(k)`), returning `none` when the key is absent. -/
def alookup {α : Type} : List (Bytes × α) → Bytes → Option α
  | [], _ => none
  | (k, v) :: r, a => if k = a then some v else alookup r a

/-- Python `dict[k] = v`: replaces the value in place if the key exists
(keeping its insertion position), else appends a new entry. -/
def aupdate {α : Type} : List (Bytes × α) → Bytes → α → List (Bytes × α)
  | [], k, v => [(k, v)]
  | (k', v') :: r, k, v =>
    if k' = k then (k, v) :: r else (k', v') :: aupdate r k v

/-- Option-valued map over a list, failing when any element fails
(used to model loops whose body can raise `KeyError`). -/
def omap {α β : Type} (f : α → Option β) : List α → Option (List β)
  | [] => some []
  | x :: r =>
    match f x with
    | none => none
    | some y =>
      match omap f r with
      | none => none
      | some ys => some (y :: ys)

/-- Length of the shortest list, 0 for an empty family
(the truncation width of Python `zip`). -/
def minLens : List Bytes → Nat
  | [] => 0
  | [b] => b.length
  | b :: r => Nat.min b.length (minLens r)

/-- Python `zip(*ls)` over byte strings: the list of columns, truncated to
the shortest input. -/
def pyZipStar (ls : List Bytes) : List (List Nat) :=
  (List.range (minLens ls)).map (fun i => ls.map (fun b => b.getD i 0))

/-- Models `bytes(a ^ b for a, b in zip(*values))`
(`onchain_contract.py` line 173).  Each column of `zip(*values)` is a
tuple of length `ls.length`; unpacking it as `a, b` raises `ValueError`
unless that length is exactly 2, modelled here as `none`. -/
def pyPairXor (ls : List Bytes) : Option Bytes :=
  let rows := pyZipStar ls
  if rows.all (fun r => r.length = 2) then
    some (rows.map (fun r => (r.getD 0 0) ^^^ (r.getD 1 0)))
  else none

/-- Models `bytes(functools.reduce(operator.xor, t) for t in zip(*ls))`
(`leader.py` lines 125-126): per-column XOR over all inputs; `reduce` on
an empty column raises, modelled as `none`. -/
def pyXorReduceStar (ls : List Bytes) : Option Bytes :=
  omap (fun r =>
    match r with
    | [] => none
    | x :: t => some (t.foldl Nat.xor x)) (pyZipStar ls)

/-- Byte-wise XOR of two byte strings, truncating to the shorter
(`bytes(a ^ b for a, b in zip(x, y))`). -/
def bxor (a b : Bytes) : Bytes := List.zipWith Nat.xor a b

/-- Python `int.from_bytes(b, 'big')`. -/
def natFromBytes (b : Bytes) : Nat := b.foldl (fun acc x => acc * 256 + x) 0

/-- Insert an element into a (sorted) list, after all existing elements
that compare `le` to it — the placement a stable sort gives. -/
def insertK {α : Type} (le : α → α → Bool) (x : α) : List α → List α
  | [] => [x]
  | y :: ys => if le y x then y :: insertK le x ys else x :: y :: ys

/-- Stable insertion sort.  Python's `sorted` is a stable sort, and any two
stable sorts under the same comparison produce the same output, so this is
extensionally `sorted(l, key=...)` when `le` compares the keys. -/
def sortK {α : Type} (le : α → α → Bool) (l : List α) : List α :=
  l.foldl (fun acc x => insertK le x acc) []

/-- Lexicographic comparison of byte strings, as Python compares `bytes`. -/
def bytesLe : Bytes → Bytes → Bool
  | [], _ => true
  | _ :: _, [] => false
  | x :: xs, y :: ys => if x < y then true else if y < x then false else bytesLe xs ys

/-! ## Direct variant: `OnChainCommitReveal2` (`src/onchain_contract.py`) -/

/-- Protocol phases of the direct variant. -/
inductive OPhase where
  | COMMIT
  | REVEAL1
  | REVEAL2
  | DONE
deriving DecidableEq

/-- State of `OnChainCommitReveal2`: the registered address set (kept in
registration order), the phase, the three commitment stores, and the
reveal-order bookkeeping. -/
structure OnChainState where
  participant_addresses : List Bytes
  phase : OPhase
  commitments_cv : List (Bytes × Bytes)
  commitments_co : List (Bytes × Bytes)
  revealed_secrets_s : List (Bytes × Bytes)
  reveal_order_metrics : List (Bytes × Nat)
  omega_v : Option Bytes
  reveal_order : List Bytes
  omega_o : Option Bytes
deriving DecidableEq

namespace OnChainCommitReveal2

/-- Models `OnChainCommitReveal2.__init__`. -/
def init (participant_addresses : List Bytes) : OnChainState :=
  { participant_addresses := participant_addresses
    phase := OPhase.COMMIT
    commitments_cv := []
    commitments_co := []
    revealed_secrets_s := []
    reveal_order_metrics := []
    omega_v := none
    reveal_order := []
    omega_o := none }

/-- Models `_compute_reveal_order`, as a function of the fields it reads: the
registered set and the `cv` store.  Returns the new `omega_v`, metrics and
reveal order, or `none` when the Python code raises (`ValueError` from the
pair unpacking for participant counts other than 2, or `KeyError` when a
registered address has no metric).  Python sorts the participant set with
a stable sort; its set iteration order is unspecified, so the stored
registration list stands for it here, and the sort is a stable insertion
sort, extensionally equal to any stable sort under the same keys. -/
def compute_reveal_order_core (H : Bytes → Bytes)
    (participants : List Bytes) (cvmap : List (Bytes × Bytes)) :
    Option (Bytes × List (Bytes × Nat) × List Bytes) :=
  match pyPairXor (cvmap.map Prod.snd) with
  | none => none
  | some omega_v =>
    let metrics := cvmap.map (fun p => (p.1, natFromBytes (H (bxor omega_v p.2))))
    match omap (fun a => (alookup metrics a).map (fun d => (a, d))) participants with
    | none => none
    | some keyed =>
      some (omega_v, metrics,
        (sortK (fun p q => decide (p.2 ≤ q.2)) keyed).map Prod.fst)

/-- Models `_compute_reveal_order` applied to the contract state. -/
def compute_reveal_order (H : Bytes → Bytes) (st : OnChainState) :
    Option OnChainState :=
  match compute_reveal_order_core H st.participant_addresses st.commitments_cv with
  | none => none
  | some (omega_v, metrics, order) =>
    some { st with
      omega_v := some omega_v
      reveal_order_metrics := metrics
      reveal_order := order }

/-- Models `_compute_final_randomness`: concatenate the secrets in reveal order and
hash; `none` models the `KeyError` when a reveal-order address has no
stored secret. -/
def compute_final_randomness (H : Bytes → Bytes) (st : OnChainState) :
    Option OnChainState :=
  match omap (fun a => alookup st.revealed_secrets_s a) st.reveal_order with
  | none => none
  | some ordered_secrets =>
    some { st with omega_o := some (H ordered_secrets.flatten) }

/-- Models `submit_cv`: phase, membership and duplicate checks, then store, then
advance to REVEAL1 when all registered addresses have submitted. -/
def submit_cv (st : OnChainState) (sender cv : Bytes) : Bool × OnChainState :=
  if st.phase ≠ OPhase.COMMIT then (false, st)
  else if sender ∉ st.participant_addresses then (false, st)
  else if (alookup st.commitments_cv sender).isSome then (false, st)
  else
    let cvs := st.commitments_cv ++ [(sender, cv)]
    let st' := { st with commitments_cv := cvs }
    if cvs.length = st.participant_addresses.length then
      (true, { st' with phase := OPhase.REVEAL1 })
    else (true, st')

/-- Models `submit_co`: phase, membership, duplicate and hash-chain checks, then
store; on the final submission run `_compute_reveal_order` and advance to
REVEAL2.  `none` models an uncaught exception. -/
def submit_co (H : Bytes → Bytes) (st : OnChainState) (sender co : Bytes) :
    Option (Bool × OnChainState) :=
  if st.phase ≠ OPhase.REVEAL1 then some (false, st)
  else if sender ∉ st.participant_addresses then some (false, st)
  else if (alookup st.commitments_co sender).isSome then some (false, st)
  else
    match alookup st.commitments_cv sender with
    | none => none
    | some cv =>
      if H co ≠ cv then some (false, st)
      else
        let st' := { st with commitments_co := st.commitments_co ++ [(sender, co)] }
        if st'.commitments_co.length = st.participant_addresses.length then
          match compute_reveal_order H st' with
          | none => none
          | some st'' => some (true, { st'' with phase := OPhase.REVEAL2 })
        else some (true, st')

/-- Models `submit_s`: phase, membership, duplicate, hash-chain and reveal-order
checks, then store; on the final submission run
`_compute_final_randomness` and advance to DONE. -/
def submit_s (H : Bytes → Bytes) (st : OnChainState) (sender s : Bytes) :
    Option (Bool × OnChainState) :=
  if st.phase ≠ OPhase.REVEAL2 then some (false, st)
  else if sender ∉ st.participant_addresses then some (false, st)
  else if (alookup st.revealed_secrets_s sender).isSome then some (false, st)
  else
    match alookup st.commitments_co sender with
    | none => none
    | some co =>
      if H s ≠ co then some (false, st)
      else
        match st.reveal_order.get? st.revealed_secrets_s.length with
        | none => none
        | some next_revealer =>
          if sender ≠ next_revealer then some (false, st)
          else
            let st' := { st with
              revealed_secrets_s := st.revealed_secrets_s ++ [(sender, s)] }
            if st'.revealed_secrets_s.length = st.participant_addresses.length then
              match compute_final_randomness H st' with
              | none => none
              | some st'' => some (true, { st'' with phase := OPhase.DONE })
            else some (true, st')

/-- Models `get_final_randomness`. -/
def get_final_randomness (st : OnChainState) : Option Bytes :=
  if st.phase = OPhase.DONE then st.omega_o else none

/-- Models `reset`: clear all per-run state, back to COMMIT. -/
def reset (st : OnChainState) : OnChainState :=
  { st with
    phase := OPhase.COMMIT
    commitments_cv := []
    commitments_co := []
    revealed_secrets_s := []
    reveal_order_metrics := []
    omega_v := none
    reveal_order := []
    omega_o := none }

end OnChainCommitReveal2

/-! ## Merkle root of the external `merkletools` library

`add_leaf(x.hex(), do_hash=False)` stores the raw bytes as a leaf;
`make_tree` repeatedly pairs adjacent nodes left to right, hashing each
concatenation with the configured hash and promoting an odd trailing node;
`get_merkle_root` returns the root, or `None` for an empty tree (which the
callers then crash on in `bytes.fromhex`, modelled as `none`).  The node
hash `mh` is a parameter: the leader configures `sha3_256`, the hybrid
contract `keccak_256`. -/

/-- One level of Merkle tree construction: hash adjacent pairs, promote an
odd trailing node. -/
def merklePass (mh : Bytes → Bytes) : List Bytes → List Bytes
  | x :: y :: rest => mh (x ++ y) :: merklePass mh rest
  | l => l

/-- Merkle root with an explicit recursion budget (any budget at least the
number of levels gives the fixpoint; callers pass the leaf count). -/
def merkleRootAux (mh : Bytes → Bytes) : Nat → List Bytes → Option Bytes
  | _, [] => none
  | _, [x] => some x
  | 0, _ => none
  | fuel + 1, l => merkleRootAux mh fuel (merklePass mh l)

/-- Merkle root of a leaf list, `none` for an empty tree. -/
def merkleRoot (mh : Bytes → Bytes) (leaves : List Bytes) : Option Bytes :=
  merkleRootAux mh leaves.length leaves

/-! ## Hybrid variant, off-chain side: `LeaderNode` (`src/leader.py`) -/

/-- State of `LeaderNode` (minus its own keypair, which no claim touches).
The internal `MerkleTools` object is modelled by its current leaf list. -/
structure LeaderState where
  participants : List Bytes
  address_to_vk : List (Bytes × Bytes)
  activated_addresses : List Bytes
  received_cv_signed : List (Bytes × (Bytes × Bytes))
  received_co : List (Bytes × Bytes)
  received_s_signed : List (Bytes × (Bytes × Bytes))
  merkle_leaves : List Bytes
  merkle_root_cv : Option Bytes
  reveal_order : List Bytes
  omega_v : Option Bytes
  all_cv_received : Bool
  all_co_received : Bool
  all_s_received : Bool
deriving DecidableEq

namespace LeaderNode

/-- Models `LeaderNode.__init__` (participant-facing state). -/
def init : LeaderState :=
  { participants := []
    address_to_vk := []
    activated_addresses := []
    received_cv_signed := []
    received_co := []
    received_s_signed := []
    merkle_leaves := []
    merkle_root_cv := none
    reveal_order := []
    omega_v := none
    all_cv_received := false
    all_co_received := false
    all_s_received := false }

/-- Models `add_participant`: register address, key and activation order; reject
re-registration. -/
def add_participant (st : LeaderState) (address public_key : Bytes) :
    Bool × LeaderState :=
  if address ∉ st.participants then
    (true, { st with
      participants := st.participants ++ [address]
      address_to_vk := aupdate st.address_to_vk address public_key
      activated_addresses := st.activated_addresses ++ [address] })
  else (false, st)

/-- Models `_build_merkle_tree_cv`: reset the tree, add the raw `cv` bytes as
leaves in activation order, build, and record the root.  `none` models the
`KeyError` on a missing `cv` or the crash on an empty root. -/
def build_merkle_tree_cv (mh : Bytes → Bytes) (st : LeaderState) :
    Option LeaderState :=
  match omap (fun a => (alookup st.received_cv_signed a).map Prod.fst)
      st.activated_addresses with
  | none => none
  | some leaves =>
    match merkleRoot mh leaves with
    | none => none
    | some root =>
      some { st with merkle_leaves := leaves, merkle_root_cv := some root }

/-- Models `receive_cv_offchain`: membership and signature checks, then store the
pair (overwriting any previous entry for the sender); when every
participant has an entry, build the Merkle tree. -/
def receive_cv_offchain (Ver : Bytes → Bytes → Bytes → Bool)
    (mh : Bytes → Bytes) (st : LeaderState) (sender cv sig : Bytes) :
    Option (Bool × LeaderState) :=
  if sender ∉ st.participants then some (false, st)
  else
    match alookup st.address_to_vk sender with
    | none => some (false, st)
    | some vk =>
      if ¬ Ver vk cv sig then some (false, st)
      else
        let st' := { st with
          received_cv_signed := aupdate st.received_cv_signed sender (cv, sig) }
        if st'.received_cv_signed.length = st.participants.length then
          match build_merkle_tree_cv mh st' with
          | none => none
          | some st'' => some (true, st'')
        else some (true, st')

/-- Models `_compute_reveal_order_offchain`: gated on the `all_cv_received` flag
(early-return leaving the state unchanged when it is unset); otherwise
collect the `cv` values in activation order (early-return if one is
missing), XOR them into `omega_v` (all-zero bytes when there are none),
compute `d_i = H(omega_v XOR cv_i)` per address and sort the addresses by
`d_i` as byte strings.  `none` models the crash of `reduce` on an empty
column. -/
def compute_reveal_order_offchain (H : Bytes → Bytes) (st : LeaderState) :
    Option LeaderState :=
  if st.all_cv_received = false then some st
  else
    match omap (fun a => (alookup st.received_cv_signed a).map Prod.fst)
        st.activated_addresses with
    | none => some st
    | some all_cvs_ordered =>
      match (if all_cvs_ordered = [] then some (List.replicate 32 0)
             else pyXorReduceStar all_cvs_ordered) with
      | none => none
      | some omega_v =>
        let keyed := (st.activated_addresses.zip all_cvs_ordered).map
          (fun p => (p.1, H (bxor omega_v p.2)))
        some { st with
          omega_v := some omega_v
          reveal_order := (sortK (fun p q => bytesLe p.2 q.2) keyed).map Prod.fst }

/-- Models `receive_co_offchain`: membership, stored-`cv` and hash-chain checks,
then store; when every participant has a `co`, run
`_compute_reveal_order_offchain`. -/
def receive_co_offchain (H : Bytes → Bytes) (st : LeaderState)
    (sender co : Bytes) : Option (Bool × LeaderState) :=
  if sender ∉ st.participants then some (false, st)
  else
    match alookup st.received_cv_signed sender with
    | none => some (false, st)
    | some cvp =>
      if H co ≠ cvp.1 then some (false, st)
      else
        let st' := { st with received_co := aupdate st.received_co sender co }
        if st'.received_co.length = st.participants.length then
          match compute_reveal_order_offchain H st' with
          | none => none
          | some st'' => some (true, st'')
        else some (true, st')

/-- Models `receive_s_offchain`: membership check, reveal-order-computed check,
next-revealer check, stored-`co` and hash-chain checks, then store the
secret with the original `cv` signature; flag completion when every
participant has revealed. -/
def receive_s_offchain (H : Bytes → Bytes) (st : LeaderState)
    (sender s : Bytes) : Option (Bool × LeaderState) :=
  if sender ∉ st.participants then some (false, st)
  else if st.reveal_order = [] then some (false, st)
  else
    match st.reveal_order.get? st.received_s_signed.length with
    | none => none
    | some expected_sender =>
      if sender ≠ expected_sender then some (false, st)
      else
        match alookup st.received_co sender with
        | none => some (false, st)
        | some co =>
          if H s ≠ co then some (false, st)
          else
            match alookup st.received_cv_signed sender with
            | none => none
            | some cv_data =>
              let st' := { st with
                received_s_signed := aupdate st.received_s_signed sender (s, cv_data.2) }
              if st'.received_s_signed.length = st.participants.length then
                some (true, { st' with all_s_received := true })
              else some (true, st')

end LeaderNode

/-! ## Hybrid variant, on-chain side: `HybridContract`
(`src/hybrid_contract.py`) -/

/-- Phases of the hybrid contract. -/
inductive HPhase where
  | AWAITING_ROOT
  | AWAITING_SECRETS
  | DONE
deriving DecidableEq

/-- State of `HybridContract`; the internal `MerkleTools` object is
modelled by its current leaf list. -/
structure HybridState where
  leader_address : Bytes
  participant_vks : List (Bytes × Bytes)
  activated_addresses : List Bytes
  merkle_root_cv : Option Bytes
  omega_o : Option Bytes
  phase : HPhase
  merkle_leaves : List Bytes
deriving DecidableEq

namespace HybridContract

/-- Models `HybridContract.__init__`. -/
def init (leader_address : Bytes) : HybridState :=
  { leader_address := leader_address
    participant_vks := []
    activated_addresses := []
    merkle_root_cv := none
    omega_o := none
    phase := HPhase.AWAITING_ROOT
    merkle_leaves := [] }

/-- Models `add_participant`: register a verification key and the activation
order; silently ignore re-registration. -/
def add_participant (st : HybridState) (address verification_key : Bytes) :
    HybridState :=
  if (alookup st.participant_vks address).isNone then
    { st with
      participant_vks := aupdate st.participant_vks address verification_key
      activated_addresses := st.activated_addresses ++ [address] }
  else st

/-- Models `submit_merkle_root_cv`: leader-only, AWAITING_ROOT-only; store the
root and advance. -/
def submit_merkle_root_cv (st : HybridState) (sender_address root : Bytes) :
    Bool × HybridState :=
  if sender_address ≠ st.leader_address then (false, st)
  else if st.phase ≠ HPhase.AWAITING_ROOT then (false, st)
  else
    (true, { st with
      merkle_root_cv := some root
      phase := HPhase.AWAITING_SECRETS })

/-- The verification loop of `generate_random_number`: for each activated
address (paired with its secret and signature), recompute `co = H(s)` and
`cv = H(co)`, verify the signature over `cv`, and add `cv` as a Merkle
leaf.  Returns `some (false, leaves)` with the leaves added so far on the
first signature failure, `some (true, leaves)` with all leaves when every
entry verifies, and `none` on a missing verification key (`KeyError`). -/
def verify_batch_loop (H : Bytes → Bytes) (Ver : Bytes → Bytes → Bytes → Bool)
    (vks : List (Bytes × Bytes)) :
    List (Bytes × Bytes × Bytes) → Option (Bool × List Bytes)
  | [] => some (true, [])
  | (address, s, sig) :: rest =>
    match alookup vks address with
    | none => none
    | some vk =>
      let cv := H (H s)
      if ¬ Ver vk cv sig then some (false, [])
      else
        match verify_batch_loop H Ver vks rest with
        | none => none
        | some (ok, leaves) => some (ok, cv :: leaves)

/-- Models `generate_random_number`: leader-only, AWAITING_SECRETS-only, array
lengths must match the participant count; then reset the internal Merkle
tree, verify every entry while rebuilding the tree, compare the rebuilt
root with the stored root, and on success hash the concatenated secrets
and advance to DONE. -/
def generate_random_number (H : Bytes → Bytes)
    (Ver : Bytes → Bytes → Bytes → Bool) (mh : Bytes → Bytes)
    (st : HybridState) (sender_address : Bytes) (secrets signatures : List Bytes) :
    Option (Bool × HybridState) :=
  if sender_address ≠ st.leader_address then some (false, st)
  else if st.phase ≠ HPhase.AWAITING_SECRETS then some (false, st)
  else if secrets.length ≠ st.activated_addresses.length ∨
      signatures.length ≠ st.activated_addresses.length then some (false, st)
  else
    match verify_batch_loop H Ver st.participant_vks
        (st.activated_addresses.zip (secrets.zip signatures)) with
    | none => none
    | some (false, leaves) => some (false, { st with merkle_leaves := leaves })
    | some (true, leaves) =>
      match merkleRoot mh leaves with
      | none => none
      | some computed_root =>
        if st.merkle_root_cv ≠ some computed_root then
          some (false, { st with merkle_leaves := leaves })
        else
          some (true, { st with
            merkle_leaves := leaves
            omega_o := some (H secrets.flatten)
            phase := HPhase.DONE })

/-- Models `get_final_randomness`. -/
def get_final_randomness (st : HybridState) : Option Bytes :=
  if st.phase ≠ HPhase.DONE then none else st.omega_o

/-- Models `reset`: clear the root, the final randomness, the phase and the
internal Merkle tree. -/
def reset (st : HybridState) : HybridState :=
  { st with
    merkle_root_cv := none
    omega_o := none
    phase := HPhase.AWAITING_ROOT
    merkle_leaves := [] }

end HybridContract

/-! ## Concrete instantiations of the external collaborators

Toy stand-ins for the cryptographic primitives, used to evaluate the
models on concrete inputs.  `tH` stands for Keccak-256, `tVer` for an
ECDSA verifier that accepts the given signatures, `mhA`/`mhB` for two
distinct Merkle node hashes (as `sha3_256` and `keccak_256` are distinct
functions). -/

/-- Toy stand-in for the hash function. -/
def tH : Bytes → Bytes := fun b => [b.foldl Nat.add 1]

/-- Toy stand-in for a signature verifier that accepts. -/
def tVer : Bytes → Bytes → Bytes → Bool := fun _ _ _ => true

/-- Toy stand-in for the leader's Merkle node hash (`sha3_256`). -/
def mhA : Bytes → Bytes := fun b => 0 :: b

/-- Toy stand-in for the contract's Merkle node hash (`keccak_256`). -/
def mhB : Bytes → Bytes := fun b => 1 :: b

/-- Extract the next state from an accepted leader-side step, failing on a
rejection or a crash. -/
def stepAccept (r : Option (Bool × LeaderState)) : Option LeaderState :=
  match r with
  | some (true, st) => some st
  | _ => none

/-- A two-participant leader after both registrations. -/
def ldReg : LeaderState :=
  (LeaderNode.add_participant
    (LeaderNode.add_participant LeaderNode.init [1] [11]).2 [2] [12]).2

/-- The honest `cv` exchange with the two-participant leader: participant
`[1]` holds secret `[5]` (`co = [6]`, `cv = [7]` under `tH`), participant
`[2]` holds secret `[6]` (`co = [7]`, `cv = [8]`). -/
def ldFullCv : Option LeaderState :=
  (stepAccept (LeaderNode.receive_cv_offchain tVer mhA ldReg [1] [7] [21])).bind
    (fun s => stepAccept (LeaderNode.receive_cv_offchain tVer mhA s [2] [8] [22]))

/-- The complete honest `cv` then `co` exchange with the two-participant
leader, keeping only runs where every call is accepted. -/
def ldFullCo : Option LeaderState :=
  ldFullCv.bind
    (fun s => (stepAccept (LeaderNode.receive_co_offchain tH s [1] [6])).bind
      (fun s => stepAccept (LeaderNode.receive_co_offchain tH s [2] [7])))

/-- A two-participant hybrid contract after both registrations, leader
address `[9]`. -/
def hcReg : HybridState :=
  HybridContract.add_participant
    (HybridContract.add_participant (HybridContract.init [9]) [1] [11]) [2] [12]

/-- The hybrid contract after the leader published the root the leader
model computed (node hash `mhA`) over the raw `cv` leaves `[7]`, `[8]`. -/
def hcRootedL : HybridState :=
  (HybridContract.submit_merkle_root_cv hcReg [9] [0, 7, 8]).2

/-- The two-participant leader after one accepted `cv` submission from
participant `[1]`. -/
def ldOneCv : Option LeaderState :=
  stepAccept (LeaderNode.receive_cv_offchain tVer mhA ldReg [1] [7] [21])

/-- The two-participant hybrid contract after the leader published an
arbitrary root `[42]`. -/
def hcRootedX : HybridState :=
  (HybridContract.submit_merkle_root_cv hcReg [9] [42]).2

/-- A direct-variant state in which participant `[1]` has an accepted `cv`
entry (the state `submit_cv` produces from `init [[1], [2]]`). -/
def stDupCv : OnChainState :=
  { OnChainCommitReveal2.init [[1], [2]] with commitments_cv := [([1], [7])] }

/-- The two-participant leader with an accepted `cv` entry for `[1]`. -/
def ldDupCv : LeaderState :=
  { ldReg with received_cv_signed := [([1], ([7], [21]))] }

/-- A direct-variant REVEAL2 state for the two participants `[1]`, `[2]`
with commitment chains from secrets `[5]`, `[6]` under `tH` and the reveal
order the contract computes from those commitments. -/
def stReveal2 : OnChainState :=
  { participant_addresses := [[1], [2]]
    phase := OPhase.REVEAL2
    commitments_cv := [([1], [7]), ([2], [8])]
    commitments_co := [([1], [6]), ([2], [7])]
    revealed_secrets_s := []
    reveal_order_metrics := [([1], 9), ([2], 8)]
    omega_v := some [15]
    reveal_order := [[2], [1]]
    omega_o := none }

/-- The REVEAL2 state after the first expected revealer `[2]` disclosed
its secret `[6]`. -/
def stFinalReveal : OnChainState :=
  { stReveal2 with revealed_secrets_s := [([2], [6])] }

/-- The direct-variant state after the completing secret submission:
both secrets stored, `omega_o` computed, phase DONE. -/
def stDone : OnChainState :=
  { stFinalReveal with
    revealed_secrets_s := [([2], [6]), ([1], [5])]
    omega_o := some [12]
    phase := OPhase.DONE }

/-- The two-participant leader with both commitment chains stored and a
fixed reveal order (the state the leader was intended to reach). -/
def ldOrdered : LeaderState :=
  { ldReg with
    received_cv_signed := [([1], ([7], [21])), ([2], ([8], [22]))]
    received_co := [([1], [6]), ([2], [7])]
    reveal_order := [[2], [1]] }

/-- The hybrid contract state after a successful honest finalization of
the batch `[[5], [6]]` against the `mhA` root. -/
def hcDone : HybridState :=
  { hcRootedL with
    omega_o := some [12]
    phase := HPhase.DONE
    merkle_leaves := [[7], [8]] }

/-- The rejected state of the C5 scenario: root mismatch left the scratch
tree filled with the batch's recomputed leaves. -/
def hcLeaved : HybridState :=
  { hcRootedX with merkle_leaves := [[7], [8]] }

/-- The hash-chain invariant of the direct variant: every stored `co` is
preimage-consistent with a stored `cv`, and every stored `s` with a stored
`co`. -/
def HashChainInv (H : Bytes → Bytes) (st : OnChainState) : Prop :=
  (∀ a co, alookup st.commitments_co a = some co →
    alookup st.commitments_cv a = some (H co)) ∧
  (∀ a s, alookup st.revealed_secrets_s a = some s →
    alookup st.commitments_co a = some (H s))

/-- Reachable states of the direct-variant contract: an initial state for
any registered set, followed by any sequence of submissions (accepted or
rejected, as long as they do not crash) and resets. -/
inductive Reach (H : Bytes → Bytes) : OnChainState → Prop where
  | init (ps : List Bytes) : Reach H (OnChainCommitReveal2.init ps)
  | submitCv {st st' : OnChainState} {b : Bool} (a c : Bytes) :
      Reach H st → OnChainCommitReveal2.submit_cv st a c = (b, st') →
      Reach H st'
  | submitCo {st st' : OnChainState} {b : Bool} (a c : Bytes) :
      Reach H st → OnChainCommitReveal2.submit_co H st a c = some (b, st') →
      Reach H st'
  | submitS {st st' : OnChainState} {b : Bool} (a c : Bytes) :
      Reach H st → OnChainCommitReveal2.submit_s H st a c = some (b, st') →
      Reach H st'
  | resetStep {st : OnChainState} :
      Reach H st → Reach H (OnChainCommitReveal2.reset st)

/-! ## Helper lemmas -/

theorem insertK_perm {α : Type} (le : α → α → Bool) (x : α) :
    ∀ l : List α, (insertK le x l).Perm (x :: l) := by
  intro l
  induction l with
  | nil => exact List.Perm.refl _
  | cons y ys ih =>
    simp only [insertK]
    split
    · exact (ih.cons y).trans (List.Perm.swap x y ys)
    · exact List.Perm.refl _

theorem sortK_foldl_perm {α : Type} (le : α → α → Bool) :
    ∀ (l acc : List α),
      (l.foldl (fun acc x => insertK le x acc) acc).Perm (acc ++ l) := by
  intro l
  induction l with
  | nil => intro acc; simp
  | cons x xs ih =>
    intro acc
    simp only [List.foldl_cons]
    refine (ih (insertK le x acc)).trans ?_
    refine (List.Perm.append_right xs (insertK_perm le x acc)).trans ?_
    exact List.perm_middle.symm.trans (by simp [List.perm_middle])

theorem sortK_perm {α : Type} (le : α → α → Bool) (l : List α) :
    (sortK le l).Perm l := by
  simpa [sortK] using sortK_foldl_perm le l []

theorem omap_graph_fst {β : Type} (g : Bytes → Option β) :
    ∀ {p : List Bytes} {keyed : List (Bytes × β)},
      omap (fun a => (g a).map (fun d => (a, d))) p = some keyed →
      keyed.map Prod.fst = p := by
  intro p
  induction p with
  | nil => intro keyed h; simp [omap] at h; simp [← h]
  | cons a rest ih =>
    intro keyed h
    simp only [omap] at h
    cases hg : g a with
    | none => rw [hg] at h; simp at h
    | some d =>
      rw [hg] at h
      simp only [Option.map_some'] at h
      cases hrest : omap (fun a => (g a).map (fun d => (a, d))) rest with
      | none => rw [hrest] at h; simp at h
      | some ys =>
        rw [hrest] at h
        simp only [Option.some.injEq] at h
        subst h
        simp [ih hrest]

theorem omap_length {α β : Type} (f : α → Option β) :
    ∀ {l : List α} {ys : List β}, omap f l = some ys → ys.length = l.length := by
  intro l
  induction l with
  | nil => intro ys h; simp [omap] at h; simp [← h]
  | cons x r ih =>
    intro ys h
    simp only [omap] at h
    cases hx : f x with
    | none => rw [hx] at h; simp at h
    | some y =>
      rw [hx] at h
      cases hr : omap f r with
      | none => rw [hr] at h; simp at h
      | some zs =>
        rw [hr] at h
        simp only [Option.some.injEq] at h
        subst h
        simp [ih hr]

theorem alookup_append {α : Type} (l₁ l₂ : List (Bytes × α)) (k : Bytes) :
    alookup (l₁ ++ l₂) k =
      match alookup l₁ k with
      | some v => some v
      | none => alookup l₂ k := by
  induction l₁ with
  | nil => simp [alookup]
  | cons p r ih =>
    obtain ⟨k', v'⟩ := p
    simp only [List.cons_append, alookup]
    split
    · rfl
    · exact ih

theorem aupdate_length {α : Type} (k : Bytes) (v : α) :
    ∀ l : List (Bytes × α),
      (alookup l k).isSome → (aupdate l k v).length = l.length := by
  intro l
  induction l with
  | nil => intro h; simp [alookup] at h
  | cons p r ih =>
    obtain ⟨k', v'⟩ := p
    intro h
    simp only [alookup] at h
    simp only [aupdate]
    by_cases hk : k' = k
    · simp [hk]
    · rw [if_neg hk] at h ⊢
      simp [ih h]

theorem alookup_append_some {α : Type} {l₁ : List (Bytes × α)}
    (l₂ : List (Bytes × α)) {k : Bytes} {v : α} (h : alookup l₁ k = some v) :
    alookup (l₁ ++ l₂) k = some v := by
  rw [alookup_append, h]

theorem alookup_append_none {α : Type} {l₁ : List (Bytes × α)}
    (l₂ : List (Bytes × α)) {k : Bytes} (h : alookup l₁ k = none) :
    alookup (l₁ ++ l₂) k = alookup l₂ k := by
  rw [alookup_append, h]

theorem compute_reveal_order_frame (H : Bytes → Bytes)
    {st st' : OnChainState}
    (h : OnChainCommitReveal2.compute_reveal_order H st = some st') :
    st'.commitments_cv = st.commitments_cv ∧
    st'.commitments_co = st.commitments_co ∧
    st'.revealed_secrets_s = st.revealed_secrets_s ∧
    st'.participant_addresses = st.participant_addresses ∧
    st'.phase = st.phase := by
  unfold OnChainCommitReveal2.compute_reveal_order at h
  split at h
  · cases h
  · injection h with h2
    cases h2
    exact ⟨rfl, rfl, rfl, rfl, rfl⟩

theorem compute_final_randomness_frame (H : Bytes → Bytes)
    {st st' : OnChainState}
    (h : OnChainCommitReveal2.compute_final_randomness H st = some st') :
    st'.commitments_cv = st.commitments_cv ∧
    st'.commitments_co = st.commitments_co ∧
    st'.revealed_secrets_s = st.revealed_secrets_s ∧
    st'.participant_addresses = st.participant_addresses ∧
    st'.phase = st.phase ∧
    st'.reveal_order = st.reveal_order := by
  unfold OnChainCommitReveal2.compute_final_randomness at h
  split at h
  · cases h
  · injection h with h2
    cases h2
    exact ⟨rfl, rfl, rfl, rfl, rfl, rfl⟩

theorem inv_of_fields (H : Bytes → Bytes) {st₁ st₂ : OnChainState}
    (h1 : st₂.commitments_cv = st₁.commitments_cv)
    (h2 : st₂.commitments_co = st₁.commitments_co)
    (h3 : st₂.revealed_secrets_s = st₁.revealed_secrets_s)
    (hi : HashChainInv H st₁) : HashChainInv H st₂ := by
  unfold HashChainInv at *
  rw [h1, h2, h3]
  exact hi

theorem inv_extend_cv (H : Bytes → Bytes) {st : OnChainState}
    {sender c : Bytes} (hi : HashChainInv H st) :
    HashChainInv H
      { st with commitments_cv := st.commitments_cv ++ [(sender, c)] } :=
  ⟨fun a2 co2 hco2 => alookup_append_some _ (hi.1 a2 co2 hco2), hi.2⟩

theorem inv_extend_co (H : Bytes → Bytes) {st : OnChainState}
    {sender c cvv : Bytes} (hi : HashChainInv H st)
    (hcv : alookup st.commitments_cv sender = some cvv) (hh : H c = cvv) :
    HashChainInv H
      { st with commitments_co := st.commitments_co ++ [(sender, c)] } := by
  constructor
  · intro a2 co2 hco2
    rw [alookup_append] at hco2
    cases hold : alookup st.commitments_co a2 with
    | some v =>
      rw [hold] at hco2
      injection hco2 with hv
      cases hv
      exact hi.1 a2 co2 hold
    | none =>
      rw [hold] at hco2
      simp only [alookup] at hco2
      split at hco2
      · rename_i hsa
        cases hsa
        injection hco2 with hc
        cases hc
        rw [hh]
        exact hcv
      · cases hco2
  · intro a2 s2 hs2
    exact alookup_append_some _ (hi.2 a2 s2 hs2)

theorem inv_extend_s (H : Bytes → Bytes) {st : OnChainState}
    {sender c cov : Bytes} (hi : HashChainInv H st)
    (hco : alookup st.commitments_co sender = some cov) (hh : H c = cov) :
    HashChainInv H
      { st with revealed_secrets_s := st.revealed_secrets_s ++ [(sender, c)] } := by
  constructor
  · exact hi.1
  · intro a2 s2 hs2
    rw [alookup_append] at hs2
    cases hold : alookup st.revealed_secrets_s a2 with
    | some v =>
      rw [hold] at hs2
      injection hs2 with hv
      cases hv
      exact hi.2 a2 s2 hold
    | none =>
      rw [hold] at hs2
      simp only [alookup] at hs2
      split at hs2
      · rename_i hsa
        cases hsa
        injection hs2 with hc
        cases hc
        rw [hh]
        exact hco
      · cases hs2

theorem inv_submit_cv (H : Bytes → Bytes) {st st' : OnChainState} {b : Bool}
    {a c : Bytes} (h : OnChainCommitReveal2.submit_cv st a c = (b, st'))
    (hi : HashChainInv H st) : HashChainInv H st' := by
  unfold OnChainCommitReveal2.submit_cv at h
  iterate 6 (all_goals (try (first | (split at h) | (simp only [] at h))))
  all_goals (injection h with hb hst)
  all_goals (cases hst)
  all_goals (first
    | exact hi
    | exact inv_of_fields H rfl rfl rfl (inv_extend_cv H hi))

theorem inv_submit_co (H : Bytes → Bytes) {st st' : OnChainState} {b : Bool}
    {a c : Bytes} (h : OnChainCommitReveal2.submit_co H st a c = some (b, st'))
    (hi : HashChainInv H st) : HashChainInv H st' := by
  unfold OnChainCommitReveal2.submit_co at h
  split at h
  · injection h with h2
    injection h2 with hb hst
    cases hst
    exact hi
  · split at h
    · injection h with h2
      injection h2 with hb hst
      cases hst
      exact hi
    · split at h
      · injection h with h2
        injection h2 with hb hst
        cases hst
        exact hi
      · split at h
        · cases h
        · rename_i cvv hcv
          split at h
          · injection h with h2
            injection h2 with hb hst
            cases hst
            exact hi
          · rename_i hhash
            have hh : H c = cvv := not_not.mp hhash
            simp only [] at h
            split at h
            · split at h
              · cases h
              · rename_i st'' heq
                injection h with h2
                injection h2 with hb hst
                cases hst
                obtain ⟨f1, f2, f3, _, _⟩ := compute_reveal_order_frame H heq
                exact inv_of_fields H f1 f2 f3 (inv_extend_co H hi hcv hh)
            · injection h with h2
              injection h2 with hb hst
              cases hst
              exact inv_extend_co H hi hcv hh

theorem inv_submit_s (H : Bytes → Bytes) {st st' : OnChainState} {b : Bool}
    {a c : Bytes} (h : OnChainCommitReveal2.submit_s H st a c = some (b, st'))
    (hi : HashChainInv H st) : HashChainInv H st' := by
  unfold OnChainCommitReveal2.submit_s at h
  split at h
  · injection h with h2
    injection h2 with hb hst
    cases hst
    exact hi
  · split at h
    · injection h with h2
      injection h2 with hb hst
      cases hst
      exact hi
    · split at h
      · injection h with h2
        injection h2 with hb hst
        cases hst
        exact hi
      · split at h
        · cases h
        · rename_i cov hco
          split at h
          · injection h with h2
            injection h2 with hb hst
            cases hst
            exact hi
          · rename_i hhash
            have hh : H c = cov := not_not.mp hhash
            split at h
            · cases h
            · split at h
              · injection h with h2
                injection h2 with hb hst
                cases hst
                exact hi
              · simp only [] at h
                split at h
                · split at h
                  · cases h
                  · rename_i st'' heq
                    injection h with h2
                    injection h2 with hb hst
                    cases hst
                    obtain ⟨f1, f2, f3, _, _⟩ :=
                      compute_final_randomness_frame H heq
                    exact inv_of_fields H f1 f2 f3 (inv_extend_s H hi hco hh)
                · injection h with h2
                  injection h2 with hb hst
                  cases hst
                  exact inv_extend_s H hi hco hh

theorem inv_reset (H : Bytes → Bytes) (st : OnChainState) :
    HashChainInv H (OnChainCommitReveal2.reset st) := by
  constructor <;> intro a v hv <;>
    simp [OnChainCommitReveal2.reset, alookup] at hv

theorem inv_init (H : Bytes → Bytes) (ps : List Bytes) :
    HashChainInv H (OnChainCommitReveal2.init ps) := by
  constructor <;> intro a v hv <;>
    simp [OnChainCommitReveal2.init, alookup] at hv

/-! ## Claim theorems -/

/-- C1: the reveal-order aggregate. The spec (and the hybrid leader,
`leader.py` lines 124-126) take Ω as the byte-wise XOR across all `cv`
values, independent of order; but the direct contract's
`_compute_reveal_order` (`onchain_contract.py` line 173) unpacks each
column of `zip(*values)` as a pair, which raises `ValueError` for any
participant count other than 2.  At three concrete single-byte-suffixed
commitments the on-chain aggregate crashes (`none`) while the XOR across
all three is well defined and order-independent; at two commitments the
two computations agree. -/
theorem C1_omega_pair_unpack_crashes :
    pyPairXor [[1, 2], [3, 4], [5, 6]] = none ∧
    pyXorReduceStar [[1, 2], [3, 4], [5, 6]] = some [7, 0] ∧
    pyXorReduceStar [[3, 4], [5, 6], [1, 2]] = some [7, 0] ∧
    pyXorReduceStar [[5, 6], [1, 2], [3, 4]] = some [7, 0] ∧
    pyPairXor [[1, 2], [3, 4]] = some [2, 6] ∧
    pyXorReduceStar [[1, 2], [3, 4]] = some [2, 6] := by
  decide

/-- C2: in the hybrid leader, after two participants register and every
one of them submits a valid signed `cv` and then a valid `co` (every call
accepted), the reveal order is still empty: `_compute_reveal_order_offchain`
early-returns because the `all_cv_received` flag is initialised `False`
and never set anywhere, so the reveal order is never fixed — contradicting
the claim (and `test_co_collection` in `tests/test_hybrid.py`). -/
theorem C2_reveal_order_never_computed :
    ldFullCo.map (fun s => s.reveal_order) = some [] ∧
    ldFullCo.map (fun s => (s.received_co.length, s.participants.length)) =
      some (2, 2) := by
  constructor <;> rfl

/-- C3: in the honest two-participant run, the leader's Merkle root over
the raw `cv` leaves in activation order is `mhA([7] ++ [8])` (`mhA` stands
for the leader's `sha3_256` node hash, `leader.py` line 28).  The ledger
verifier rebuilds the tree from the same recomputed leaves but with its
own `keccak_256` node hash (`hybrid_contract.py` line 20, stood for by the
distinct `mhB`): every per-entry hash-chain and signature check passes,
yet `generate_random_number` rejects the honest batch on root mismatch;
with the leader's node hash it would accept.  The two roots are computed
with different hash primitives, so the claimed root equality fails on the
honest run. -/
theorem C3_root_check_hash_mismatch :
    ldFullCv.map (fun s => s.merkle_root_cv) = some (some [0, 7, 8]) ∧
    HybridContract.verify_batch_loop tH tVer hcRootedL.participant_vks
      (hcRootedL.activated_addresses.zip ([[5], [6]].zip [[21], [22]])) =
      some (true, [[7], [8]]) ∧
    (HybridContract.generate_random_number tH tVer mhB hcRootedL [9]
      [[5], [6]] [[21], [22]]).map Prod.fst = some false ∧
    (HybridContract.generate_random_number tH tVer mhA hcRootedL [9]
      [[5], [6]] [[21], [22]]).map Prod.fst = some true := by
  refine ⟨rfl, rfl, rfl, rfl⟩

/-- C4, counterexample: in the hybrid leader, participant `[1]` already has
an accepted `cv` entry `([7], [21])`, yet a second `cv` submission from the
same address is accepted (`receive_cv_offchain` returns `True`) and the
stored entry is replaced by the new pair — the claimed duplicate rejection
does not happen in the hybrid variant. -/
theorem C4_counterexample_leader_accepts_duplicate :
    ldOneCv.map (fun s => alookup s.received_cv_signed [1]) =
      some (some ([7], [21])) ∧
    (ldOneCv.bind (fun s => LeaderNode.receive_cv_offchain tVer mhA s [1] [33] [23])).map
      (fun p => (p.1, alookup p.2.received_cv_signed [1])) =
      some (true, some ([33], [23])) := by
  refine ⟨rfl, rfl⟩

/-- C4, amended: in the direct variant a second `cv`, `co` or `s`
submission from an address with an accepted entry of that kind is rejected
and the state (hence the stored entry) is unchanged; in the hybrid leader,
however, a second `cv` or `co` submission that passes the membership,
signature and hash-chain checks is accepted again and overwrites the
stored entry. -/
theorem C4_amended_duplicate_handling :
    (∀ (st : OnChainState) (sender cv : Bytes),
        (alookup st.commitments_cv sender).isSome →
        OnChainCommitReveal2.submit_cv st sender cv = (false, st)) ∧
    (∀ (H : Bytes → Bytes) (st : OnChainState) (sender co : Bytes),
        (alookup st.commitments_co sender).isSome →
        OnChainCommitReveal2.submit_co H st sender co = some (false, st)) ∧
    (∀ (H : Bytes → Bytes) (st : OnChainState) (sender s : Bytes),
        (alookup st.revealed_secrets_s sender).isSome →
        OnChainCommitReveal2.submit_s H st sender s = some (false, st)) ∧
    (∀ (Ver : Bytes → Bytes → Bytes → Bool) (mh : Bytes → Bytes)
        (st : LeaderState) (sender cv sig vk : Bytes),
        sender ∈ st.participants →
        alookup st.address_to_vk sender = some vk →
        Ver vk cv sig = true →
        (alookup st.received_cv_signed sender).isSome →
        st.received_cv_signed.length ≠ st.participants.length →
        LeaderNode.receive_cv_offchain Ver mh st sender cv sig =
          some (true, { st with
            received_cv_signed := aupdate st.received_cv_signed sender (cv, sig) })) ∧
    (∀ (H : Bytes → Bytes) (st : LeaderState) (sender co : Bytes)
        (cvp : Bytes × Bytes),
        sender ∈ st.participants →
        alookup st.received_cv_signed sender = some cvp →
        H co = cvp.1 →
        (alookup st.received_co sender).isSome →
        st.received_co.length ≠ st.participants.length →
        LeaderNode.receive_co_offchain H st sender co =
          some (true, { st with
            received_co := aupdate st.received_co sender co })) := by
  refine ⟨?_, ?_, ?_, ?_, ?_⟩
  · intro st sender cv hdup
    unfold OnChainCommitReveal2.submit_cv
    split_ifs <;> simp_all
  · intro H st sender co hdup
    unfold OnChainCommitReveal2.submit_co
    split_ifs <;> simp_all
  · intro H st sender s hdup
    unfold OnChainCommitReveal2.submit_s
    split_ifs <;> simp_all
  · intro Ver mh st sender cv sig vk hmem hvk hver hdup hlen
    have hlen2 := aupdate_length sender (cv, sig) st.received_cv_signed hdup
    simp [LeaderNode.receive_cv_offchain, hmem, hvk, hver, hlen2, hlen]
  · intro H st sender co cvp hmem hcv hco hdup hlen
    have hlen2 := aupdate_length sender co st.received_co hdup
    simp [LeaderNode.receive_co_offchain, hmem, hcv, hco, hlen2, hlen]

/-- C5, counterexample: `generate_random_number` rejects this batch (root
mismatch, returns `False`), yet the engine's internal Merkle tree state is
not what it was before the call — the loop reset it and filled it with the
batch's recomputed leaves before the rejection. -/
theorem C5_counterexample_reject_mutates_tree :
    (HybridContract.generate_random_number tH tVer mhB hcRootedX [9]
      [[5], [6]] [[21], [22]]).map (fun p => (p.1, p.2.merkle_leaves)) =
      some (false, [[7], [8]]) ∧
    hcRootedX.merkle_leaves = [] := by
  refine ⟨rfl, rfl⟩

/-- C5, amended: every rejecting return of `submit_cv`, `submit_co`,
`submit_s` and `submit_merkle_root_cv` leaves the state exactly as it was;
a rejecting return of `generate_random_number` leaves every field except
the internal Merkle scratch tree unchanged (its signature-failure and
root-mismatch paths rewrite the tree's leaves before rejecting). -/
theorem C5_amended_rejection_frame :
    (∀ (st : OnChainState) (sender cv : Bytes) (stR : OnChainState),
        OnChainCommitReveal2.submit_cv st sender cv = (false, stR) → stR = st) ∧
    (∀ (H : Bytes → Bytes) (st : OnChainState) (sender co : Bytes)
        (stR : OnChainState),
        OnChainCommitReveal2.submit_co H st sender co = some (false, stR) →
        stR = st) ∧
    (∀ (H : Bytes → Bytes) (st : OnChainState) (sender s : Bytes)
        (stR : OnChainState),
        OnChainCommitReveal2.submit_s H st sender s = some (false, stR) →
        stR = st) ∧
    (∀ (st : HybridState) (sender root : Bytes) (stR : HybridState),
        HybridContract.submit_merkle_root_cv st sender root = (false, stR) →
        stR = st) ∧
    (∀ (H : Bytes → Bytes) (Ver : Bytes → Bytes → Bytes → Bool)
        (mh : Bytes → Bytes) (st : HybridState) (sender : Bytes)
        (secrets signatures : List Bytes) (stR : HybridState),
        HybridContract.generate_random_number H Ver mh st sender
          secrets signatures = some (false, stR) →
        stR.leader_address = st.leader_address ∧
        stR.participant_vks = st.participant_vks ∧
        stR.activated_addresses = st.activated_addresses ∧
        stR.merkle_root_cv = st.merkle_root_cv ∧
        stR.omega_o = st.omega_o ∧
        stR.phase = st.phase) := by
  refine ⟨?_, ?_, ?_, ?_, ?_⟩
  · intro st sender cv stR h
    unfold OnChainCommitReveal2.submit_cv at h
    iterate 6 (all_goals (try (first | (split at h) | (simp only [] at h))))
    all_goals simp_all
  · intro H st sender co stR h
    unfold OnChainCommitReveal2.submit_co at h
    iterate 8 (all_goals (try (first | (split at h) | (simp only [] at h))))
    all_goals simp_all
  · intro H st sender s stR h
    unfold OnChainCommitReveal2.submit_s at h
    iterate 10 (all_goals (try (first | (split at h) | (simp only [] at h))))
    all_goals simp_all
  · intro st sender root stR h
    unfold HybridContract.submit_merkle_root_cv at h
    split_ifs at h <;> simp_all
  · intro H Ver mh st sender secrets signatures stR h
    unfold HybridContract.generate_random_number at h
    iterate 8 (all_goals (try (first | (split at h) | (simp only [] at h))))
    all_goals (try (injection h with h2))
    all_goals (try (cases h2))
    all_goals simp_all

/-- C4, witness: the direct contract rejects a repeated `cv` from `[1]`
leaving the state intact, while the leader accepts a repeated `cv` from
`[1]` and overwrites the stored pair. -/
theorem C4_amended_duplicate_handling_witness :
    OnChainCommitReveal2.submit_cv stDupCv [1] [9] = (false, stDupCv) ∧
    LeaderNode.receive_cv_offchain tVer mhA ldDupCv [1] [33] [23] =
      some (true, { ldDupCv with
        received_cv_signed := aupdate ldDupCv.received_cv_signed [1] ([33], [23]) }) :=
  ⟨C4_amended_duplicate_handling.1 stDupCv [1] [9] (by decide),
    C4_amended_duplicate_handling.2.2.2.1 tVer mhA ldDupCv [1] [33] [23] [11]
      (by decide) (by decide) (by decide) (by decide) (by decide)⟩

/-- C5, witness: the root-mismatch rejection of the C5 scenario left every
protocol-visible field unchanged (only the scratch tree differs). -/
theorem C5_amended_rejection_frame_witness :
    hcLeaved.leader_address = hcRootedX.leader_address ∧
    hcLeaved.participant_vks = hcRootedX.participant_vks ∧
    hcLeaved.activated_addresses = hcRootedX.activated_addresses ∧
    hcLeaved.merkle_root_cv = hcRootedX.merkle_root_cv ∧
    hcLeaved.omega_o = hcRootedX.omega_o ∧
    hcLeaved.phase = hcRootedX.phase :=
  C5_amended_rejection_frame.2.2.2.2 tH tVer mhB hcRootedX [9] [[5], [6]]
    [[21], [22]] hcLeaved (by decide)

/-- C6: in the direct variant's REVEAL2 phase and in the leader's
secret-collection step, a secret from any address other than the next
unfulfilled entry of the reveal order is rejected — even when `H(s)`
matches the sender's stored `co` — and the state (hence the expected next
revealer) is unchanged. -/
theorem C6_out_of_order_secret_rejected :
    (∀ (H : Bytes → Bytes) (st : OnChainState) (sender s co expected : Bytes),
        st.phase = OPhase.REVEAL2 →
        alookup st.commitments_co sender = some co →
        H s = co →
        st.reveal_order.get? st.revealed_secrets_s.length = some expected →
        sender ≠ expected →
        OnChainCommitReveal2.submit_s H st sender s = some (false, st)) ∧
    (∀ (H : Bytes → Bytes) (st : LeaderState) (sender s expected : Bytes),
        st.reveal_order.get? st.received_s_signed.length = some expected →
        sender ≠ expected →
        LeaderNode.receive_s_offchain H st sender s = some (false, st)) := by
  constructor
  · intro H st sender s co expected hph hco hs hget hne
    unfold OnChainCommitReveal2.submit_s
    rw [if_neg (by simp [hph])]
    by_cases hm : sender ∉ st.participant_addresses
    · rw [if_pos hm]
    · rw [if_neg hm]
      by_cases hd : (alookup st.revealed_secrets_s sender).isSome
      · rw [if_pos hd]
      · rw [if_neg hd]
        rw [List.get?_eq_getElem?] at hget
        simp [hco, hs, hget, hne]
  · intro H st sender s expected hget hne
    unfold LeaderNode.receive_s_offchain
    by_cases hm : sender ∉ st.participants
    · rw [if_pos hm]
    · rw [if_neg hm]
      have hro : ¬ st.reveal_order = [] := by
        intro he
        rw [he] at hget
        simp at hget
      rw [if_neg hro]
      rw [List.get?_eq_getElem?] at hget
      simp [hget, hne]

/-- C6, witness: in the concrete REVEAL2 state the next expected revealer
is `[2]`; participant `[1]`'s secret `[5]` hashes to its stored `co`, yet
both the contract and the leader reject it and keep their state. -/
theorem C6_out_of_order_secret_rejected_witness :
    OnChainCommitReveal2.submit_s tH stReveal2 [1] [5] = some (false, stReveal2) ∧
    LeaderNode.receive_s_offchain tH ldOrdered [1] [5] = some (false, ldOrdered) :=
  ⟨C6_out_of_order_secret_rejected.1 tH stReveal2 [1] [5] [6] [2]
      (by decide) (by decide) (by decide) (by decide) (by decide),
    C6_out_of_order_secret_rejected.2 tH ldOrdered [1] [5] [2]
      (by decide) (by decide)⟩

/-- C10: `HybridContract.reset` clears exactly the stored Merkle root, the
final randomness, the phase and the internal Merkle tree; the registered
verification keys, the activation order and the leader address survive. -/
theorem C10_reset_clears_only_run_state :
    ∀ st : HybridState,
      (HybridContract.reset st).participant_vks = st.participant_vks ∧
      (HybridContract.reset st).activated_addresses = st.activated_addresses ∧
      (HybridContract.reset st).leader_address = st.leader_address ∧
      (HybridContract.reset st).merkle_root_cv = none ∧
      (HybridContract.reset st).omega_o = none ∧
      (HybridContract.reset st).phase = HPhase.AWAITING_ROOT ∧
      (HybridContract.reset st).merkle_leaves = [] :=
  fun _ => ⟨rfl, rfl, rfl, rfl, rfl, rfl, rfl⟩

/-- C7: whenever the reveal-order computation completes, the resulting
sequence is a permutation of the registered address list; the computation
reads only the registered set and the `cv` store, so recomputing from the
same address-to-cv mapping yields the same order; and the leader-side
computation, when its gate passes and it fixes an order, also produces a
permutation of the activation list (otherwise it leaves the state as it
was). -/
theorem C7_reveal_order_permutation :
    (∀ (H : Bytes → Bytes) (participants : List Bytes)
        (cvmap : List (Bytes × Bytes)) (omega_v : Bytes)
        (metrics : List (Bytes × Nat)) (order : List Bytes),
        OnChainCommitReveal2.compute_reveal_order_core H participants cvmap =
          some (omega_v, metrics, order) →
        order.Perm participants) ∧
    (∀ (H : Bytes → Bytes) (st₁ st₂ r₁ r₂ : OnChainState),
        st₁.participant_addresses = st₂.participant_addresses →
        st₁.commitments_cv = st₂.commitments_cv →
        OnChainCommitReveal2.compute_reveal_order H st₁ = some r₁ →
        OnChainCommitReveal2.compute_reveal_order H st₂ = some r₂ →
        r₁.reveal_order = r₂.reveal_order ∧ r₁.omega_v = r₂.omega_v ∧
          r₁.reveal_order_metrics = r₂.reveal_order_metrics) ∧
    (∀ (H : Bytes → Bytes) (st st' : LeaderState),
        st.all_cv_received = true →
        LeaderNode.compute_reveal_order_offchain H st = some st' →
        st'.reveal_order.Perm st.activated_addresses ∨ st' = st) := by
  refine ⟨?_, ?_, ?_⟩
  · intro H participants cvmap omega_v metrics order h
    unfold OnChainCommitReveal2.compute_reveal_order_core at h
    simp only [] at h
    split at h
    · cases h
    · split at h
      · cases h
      · rename_i keyed hm
        injection h with h2
        cases h2
        exact (omap_graph_fst _ hm) ▸
          ((sortK_perm (fun p q => decide (p.2 ≤ q.2)) keyed).map Prod.fst)
  · intro H st₁ st₂ r₁ r₂ hp hc e₁ e₂
    unfold OnChainCommitReveal2.compute_reveal_order at e₁ e₂
    rw [hp, hc] at e₁
    split at e₁
    · cases e₁
    · split at e₂
      · cases e₂
      · injection e₁ with k₁
        injection e₂ with k₂
        cases k₁
        cases k₂
        simp_all
  · intro H st st' hcv h
    unfold LeaderNode.compute_reveal_order_offchain at h
    rw [if_neg (by simp [hcv])] at h
    split at h
    · injection h with h2
      exact Or.inr h2.symm
    · rename_i cvs hcvs
      split at h
      · cases h
      · rename_i ov hov
        injection h with h2
        cases h2
        left
        have hlen : cvs.length = st.activated_addresses.length := by
          have := omap_length _ hcvs
          simpa using this
        have hfst :
            ((st.activated_addresses.zip cvs).map
              (fun p => (p.1, H (bxor ov p.2)))).map Prod.fst =
              st.activated_addresses := by
          rw [List.map_map]
          have : (Prod.fst ∘ fun p : Bytes × Bytes => (p.1, H (bxor ov p.2))) =
              Prod.fst := rfl
          rw [this]
          exact List.map_fst_zip _ _ (le_of_eq hlen.symm)
        have hperm :=
          (sortK_perm (fun p q => bytesLe p.2 q.2)
            ((st.activated_addresses.zip cvs).map
              (fun p => (p.1, H (bxor ov p.2))))).map Prod.fst
        rw [hfst] at hperm
        exact hperm

/-- C7, witness: at the concrete two-participant commitment store the
computation completes with order `[[2], [1]]`, a permutation of the
registered list `[[1], [2]]`. -/
theorem C7_reveal_order_permutation_witness :
    OnChainCommitReveal2.compute_reveal_order_core tH [[1], [2]]
      [([1], [7]), ([2], [8])] =
      some ([15], [([1], 9), ([2], 8)], [[2], [1]]) ∧
    ([[2], [1]] : List Bytes).Perm [[1], [2]] :=
  ⟨by decide,
    C7_reveal_order_permutation.1 tH [[1], [2]] [([1], [7]), ([2], [8])]
      [15] [([1], 9), ([2], 8)] [[2], [1]] (by decide)⟩

/-- C8: on the completing accepted secret submission the direct contract
moves to DONE and sets `omega_o` to the hash of the secrets concatenated
in reveal order; on an accepted final batch the hybrid contract moves to
DONE and sets `omega_o` to the hash of the batch's secrets concatenated as
submitted — which the length check pins to activation order (one secret
per activated address, position-aligned). -/
theorem C8_final_randomness_by_order :
    (∀ (H : Bytes → Bytes) (st : OnChainState) (sender s : Bytes)
        (st' : OnChainState),
        OnChainCommitReveal2.submit_s H st sender s = some (true, st') →
        st'.revealed_secrets_s.length = st.participant_addresses.length →
        st'.phase = OPhase.DONE ∧
        st'.reveal_order = st.reveal_order ∧
        ∃ ordered_secrets : List Bytes,
          omap (fun a => alookup st'.revealed_secrets_s a) st'.reveal_order =
            some ordered_secrets ∧
          st'.omega_o = some (H ordered_secrets.flatten)) ∧
    (∀ (H : Bytes → Bytes) (Ver : Bytes → Bytes → Bytes → Bool)
        (mh : Bytes → Bytes) (st : HybridState) (sender : Bytes)
        (secrets signatures : List Bytes) (st' : HybridState),
        HybridContract.generate_random_number H Ver mh st sender secrets
          signatures = some (true, st') →
        st'.phase = HPhase.DONE ∧
        st'.omega_o = some (H secrets.flatten) ∧
        secrets.length = st.activated_addresses.length) := by
  constructor
  · intro H st sender s st' h hlen
    unfold OnChainCommitReveal2.submit_s at h
    split at h
    · exact absurd h (by simp)
    · split at h
      · exact absurd h (by simp)
      · split at h
        · exact absurd h (by simp)
        · split at h
          · cases h
          · split at h
            · exact absurd h (by simp)
            · split at h
              · cases h
              · split at h
                · exact absurd h (by simp)
                · simp only [] at h
                  split at h
                  · split at h
                    · cases h
                    · rename_i st'' heq
                      injection h with h2
                      injection h2 with hb hst
                      cases hst
                      refine ⟨rfl, ?_, ?_⟩
                      · exact (compute_final_randomness_frame H heq).2.2.2.2.2
                      · unfold OnChainCommitReveal2.compute_final_randomness at heq
                        split at heq
                        · cases heq
                        · rename_i os hos
                          injection heq with h3
                          cases h3
                          exact ⟨os, hos, rfl⟩
                  · injection h with h2
                    injection h2 with hb hst
                    cases hst
                    rename_i hnc
                    exfalso
                    apply hnc
                    simpa using hlen
  · intro H Ver mh st sender secrets signatures st' h
    unfold HybridContract.generate_random_number at h
    split at h
    · exact absurd h (by simp)
    · split at h
      · exact absurd h (by simp)
      · split at h
        · exact absurd h (by simp)
        · split at h
          · cases h
          · exact absurd h (by simp)
          · split at h
            · cases h
            · split at h
              · exact absurd h (by simp)
              · injection h with h2
                injection h2 with hb hst
                cases hst
                refine ⟨rfl, rfl, ?_⟩
                simp_all

/-- C8, witness: for the concrete final submissions, the direct contract
reaches DONE with `omega_o = tH([6] ++ [5])` (reveal order `[[2], [1]]`),
and the hybrid contract reaches DONE with `omega_o = tH([5] ++ [6])`
(activation order). -/
theorem C8_final_randomness_by_order_witness :
    (stDone.phase = OPhase.DONE ∧
      stDone.reveal_order = stFinalReveal.reveal_order ∧
      ∃ ordered_secrets : List Bytes,
        omap (fun a => alookup stDone.revealed_secrets_s a) stDone.reveal_order =
          some ordered_secrets ∧
        stDone.omega_o = some (tH ordered_secrets.flatten)) ∧
    (hcDone.phase = HPhase.DONE ∧
      hcDone.omega_o = some (tH ([[5], [6]] : List Bytes).flatten) ∧
      ([[5], [6]] : List Bytes).length = hcRootedL.activated_addresses.length) :=
  ⟨C8_final_randomness_by_order.1 tH stFinalReveal [1] [5] stDone
      (by decide) (by decide),
    C8_final_randomness_by_order.2 tH tVer mhA hcRootedL [9] [[5], [6]]
      [[21], [22]] hcDone (by decide)⟩

/-- C9: every reachable state of the direct-variant contract satisfies the
hash-chain invariant — every stored `co` verifies against a stored `cv`
and every stored `s` against a stored `co` — and every operation
(acceptances, rejections and reset) preserves it. -/
theorem C9_hash_chain_invariant :
    ∀ (H : Bytes → Bytes) (st : OnChainState),
      Reach H st → HashChainInv H st := by
  intro H st h
  induction h with
  | init ps => exact inv_init H ps
  | submitCv a c _hr he ih => exact inv_submit_cv H he ih
  | submitCo a c _hr he ih => exact inv_submit_co H he ih
  | submitS a c _hr he ih => exact inv_submit_s H he ih
  | resetStep _hr _ih => exact inv_reset H _

/-- C9, witness: the state reached from `init [[1], [2]]` by the accepted
`cv` submission of `[1]` is reachable and satisfies the invariant. -/
theorem C9_hash_chain_invariant_witness : HashChainInv tH stDupCv :=
  C9_hash_chain_invariant tH stDupCv
    (@Reach.submitCv tH (OnChainCommitReveal2.init [[1], [2]]) stDupCv true
      [1] [7] (Reach.init [[1], [2]]) (by decide))

end CommitReveal
